import Mathlib

set_option maxRecDepth 100000

/-!
Verification of the on-chain interaction layer of the yagna/erc20 payment
driver against its specification.

The Rust sources are shallowly embedded:

* machine integers (`U256`, `u64`, `u128`, addresses) become `Nat` with
  explicit bounds/`%` where the code can overflow or panic;
* byte buffers (`&[u8]`, `Bytes`, `Vec<u8>`) become `List Nat` whose
  elements are intended to lie below 256;
* Rust `String`s that only flow through byte-level operations (ABI string
  payloads, JSON schema text, parameter names/values) are kept as their
  UTF-8 byte lists; Lean `String` is used for error messages and for the
  textual deposit-id serialization, whose alphabet is ASCII;
* fallible code returns `Except String`; Rust panics (failed `assert!`,
  `as_u64`/`as_u128` overflow) are modelled as `Except.error` values whose
  message starts with `panic:`, keeping them distinguishable from ordinary
  `Err` returns;
* the asynchronous RPC collaborator is modelled by passing each operation
  the reply it would receive for every call it may issue, and every
  operation additionally returns the ordered list of RPC calls it actually
  issued (`RpcCall` trace), which makes call-count and call-order
  properties provable.

External crates are embedded from their documented behaviour at exactly the
points the code relies on them: `uint` (`U256` big-endian conversion,
decimal/hex parsing, `{:#x}` formatting, `as_u64` panics), `fixed-hash`
(`H160` parsing/formatting), `ethabi` (strict tuple/bytes/string decoding
with 32-byte words and `u32`-sized offsets), and `serde_json` (restricted
to the `[{"type": ..., "name": ...}]` shapes the validator parses).
-/

/-! ## Big-endian byte encoding of natural numbers -/

/-- Interpret a byte list as a big-endian natural number, as
`U256::from_big_endian` / `u64::from_be_bytes` do. -/
def beBytesToNat (l : List Nat) : Nat :=
  l.foldl (fun acc b => acc * 256 + b) 0

/-- Produce the `k`-byte big-endian representation of `n % 256^k`, as
`U256::to_big_endian` / `u64::to_be_bytes` do for fitting values. -/
def natToBeBytes : Nat → Nat → List Nat
  | 0, _ => []
  | k + 1, n => natToBeBytes k (n / 256) ++ [n % 256]

theorem length_natToBeBytes (k n : Nat) : (natToBeBytes k n).length = k := by
  induction k generalizing n with
  | zero => rfl
  | succ k ih => simp [natToBeBytes, ih]

theorem beBytesToNat_append (a b : List Nat) :
    beBytesToNat (a ++ b) = beBytesToNat a * 256 ^ b.length + beBytesToNat b := by
  induction b using List.reverseRecOn with
  | nil => simp [beBytesToNat]
  | append_singleton b x ih =>
    have h1 : beBytesToNat (a ++ (b ++ [x])) = beBytesToNat (a ++ b) * 256 + x := by
      rw [← List.append_assoc]
      simp [beBytesToNat, List.foldl_append]
    have h2 : beBytesToNat (b ++ [x]) = beBytesToNat b * 256 + x := by
      simp [beBytesToNat, List.foldl_append]
    rw [h1, h2, ih]
    simp only [List.length_append, List.length_cons, List.length_nil]
    ring

theorem beBytesToNat_cons (x : Nat) (l : List Nat) :
    beBytesToNat (x :: l) = x * 256 ^ l.length + beBytesToNat l := by
  have h := beBytesToNat_append [x] l
  simpa [beBytesToNat] using h

theorem beBytesToNat_lt (l : List Nat) (h : ∀ b ∈ l, b < 256) :
    beBytesToNat l < 256 ^ l.length := by
  induction l with
  | nil => simp [beBytesToNat]
  | cons x xs ih =>
    rw [beBytesToNat_cons]
    have hx : x < 256 := h x (List.mem_cons_self x xs)
    have hxs := ih (fun b hb => h b (List.mem_cons_of_mem x hb))
    have hx1 : x + 1 ≤ 256 := hx
    calc x * 256 ^ xs.length + beBytesToNat xs
        < x * 256 ^ xs.length + 256 ^ xs.length := by omega
      _ = (x + 1) * 256 ^ xs.length := by ring
      _ ≤ 256 * 256 ^ xs.length := Nat.mul_le_mul_right _ hx1
      _ = 256 ^ (x :: xs).length := by rw [List.length_cons]; ring

theorem natToBeBytes_split (j k n : Nat) :
    natToBeBytes (j + k) n = natToBeBytes j (n / 256 ^ k) ++ natToBeBytes k n := by
  induction k generalizing n with
  | zero => simp [natToBeBytes]
  | succ k ih =>
    have h1 : j + (k + 1) = (j + k) + 1 := by omega
    rw [h1]
    show natToBeBytes ((j + k) + 1) n = _
    rw [natToBeBytes, ih (n / 256)]
    rw [natToBeBytes]
    rw [List.append_assoc]
    have h2 : n / 256 / 256 ^ k = n / 256 ^ (k + 1) := by
      rw [Nat.div_div_eq_div_mul, pow_succ, mul_comm (256 ^ k) 256]
    rw [h2]

theorem beBytesToNat_natToBeBytes (k n : Nat) :
    beBytesToNat (natToBeBytes k n) = n % 256 ^ k := by
  induction k generalizing n with
  | zero => simp [natToBeBytes, beBytesToNat, Nat.mod_one]
  | succ k ih =>
    rw [natToBeBytes, beBytesToNat_append, ih]
    have hx : beBytesToNat [n % 256] = n % 256 := by simp [beBytesToNat]
    rw [hx]
    have h : n % 256 ^ (k + 1) = n % 256 + 256 * (n / 256 % 256 ^ k) := by
      rw [pow_succ, mul_comm (256 ^ k) 256]
      exact Nat.mod_mul
    simp only [List.length_cons, List.length_nil, pow_one]
    omega

theorem natToBeBytes_beBytesToNat (l : List Nat) (h : ∀ b ∈ l, b < 256) :
    natToBeBytes l.length (beBytesToNat l) = l := by
  induction l using List.reverseRecOn with
  | nil => simp [natToBeBytes, beBytesToNat]
  | append_singleton xs x ih =>
    have hx : x < 256 := h x (by simp)
    have hxs : ∀ b ∈ xs, b < 256 := fun b hb => h b (by simp [hb])
    have hV : beBytesToNat (xs ++ [x]) = beBytesToNat xs * 256 + x := by
      rw [beBytesToNat_append]
      simp [beBytesToNat]
    have hlen : (xs ++ [x]).length = xs.length + 1 := by simp
    rw [hlen, hV, natToBeBytes]
    have hdiv : (beBytesToNat xs * 256 + x) / 256 = beBytesToNat xs := by omega
    have hmod : (beBytesToNat xs * 256 + x) % 256 = x := by omega
    rw [hdiv, hmod, ih hxs]

/-! ## Deposit identifier codec (`eth.rs`, `deposit_id.rs`) -/

/-- Embedding of `deposit_id_from_nonce` (eth.rs): a 32-byte buffer whose
bytes 0..20 are the funder address, bytes 20..24 stay zero, and bytes
24..32 are the big-endian nonce, read back as a big-endian 256-bit
integer. The funder is its 20-byte address. -/
def deposit_id_from_nonce (funder : List Nat) (nonce : Nat) : Nat :=
  beBytesToNat (funder ++ List.replicate 4 0 ++ natToBeBytes 8 nonce)

/-- Embedding of `nonce_from_deposit_id` (eth.rs): write the id as 32
big-endian bytes and read bytes 24..32 back as a big-endian `u64`. -/
def nonce_from_deposit_id (deposit_id : Nat) : Nat :=
  beBytesToNat (List.drop 24 (natToBeBytes 32 deposit_id))

/-- Embedding of `DepositId` (deposit_id.rs): a 256-bit deposit identifier
together with the 20-byte lock contract address it is scoped to. -/
structure DepositId where
  deposit_id : Nat
  lock_address : List Nat
  deriving Repr, DecidableEq

/-- Embedding of `DepositId::funder` (deposit_id.rs): write the id as 32
big-endian bytes and take bytes 0..20 as the funder address. -/
def DepositId.funder (d : DepositId) : List Nat :=
  List.take 20 (natToBeBytes 32 d.deposit_id)

theorem deposit_id_from_nonce_eq (funder : List Nat) (nonce : Nat)
    (hn : nonce < 2 ^ 64) :
    deposit_id_from_nonce funder nonce = beBytesToNat funder * 256 ^ 12 + nonce := by
  unfold deposit_id_from_nonce
  rw [beBytesToNat_append, beBytesToNat_append]
  have h1 : beBytesToNat (List.replicate 4 0) = 0 := by decide
  have h2 : beBytesToNat (natToBeBytes 8 nonce) = nonce := by
    rw [beBytesToNat_natToBeBytes]
    apply Nat.mod_eq_of_lt
    calc nonce < 2 ^ 64 := hn
      _ ≤ 256 ^ 8 := by norm_num
  rw [h1, h2, length_natToBeBytes, List.length_replicate]
  ring

/-- C1. Packing a 20-byte funder address and a `u64` nonce into a deposit
identifier and unpacking again recovers both the nonce
(`nonce_from_deposit_id`) and the funder (`DepositId::funder`), whatever
lock address the identifier is paired with. -/
theorem c1_deposit_id_roundtrip (funder : List Nat) (nonce : Nat)
    (lock : List Nat)
    (hlen : funder.length = 20) (hbytes : ∀ b ∈ funder, b < 256)
    (hn : nonce < 2 ^ 64) :
    nonce_from_deposit_id (deposit_id_from_nonce funder nonce) = nonce ∧
    (DepositId.mk (deposit_id_from_nonce funder nonce) lock).funder = funder := by
  show _ ∧ List.take 20 (natToBeBytes 32 (deposit_id_from_nonce funder nonce)) = funder
  rw [deposit_id_from_nonce_eq funder nonce hn]
  set P := beBytesToNat funder * 256 ^ 12 + nonce with hP
  have hsplit24 : natToBeBytes 32 P = natToBeBytes 24 (P / 256 ^ 8) ++ natToBeBytes 8 P := by
    have h := natToBeBytes_split 24 8 P
    simpa using h
  have hsplit20 : natToBeBytes 32 P = natToBeBytes 20 (P / 256 ^ 12) ++ natToBeBytes 12 P := by
    have h := natToBeBytes_split 20 12 P
    simpa using h
  constructor
  · unfold nonce_from_deposit_id
    rw [hsplit24, List.drop_left' (length_natToBeBytes 24 _), beBytesToNat_natToBeBytes]
    have h8 : (256 : Nat) ^ 8 = 2 ^ 64 := by norm_num
    have h96 : (256 : Nat) ^ 12 = 2 ^ 32 * 2 ^ 64 := by norm_num
    rw [h8, hP, h96]
    have hrw : beBytesToNat funder * (2 ^ 32 * 2 ^ 64) + nonce
        = nonce + beBytesToNat funder * 2 ^ 32 * 2 ^ 64 := by ring
    rw [hrw, Nat.add_mul_mod_self_right, Nat.mod_eq_of_lt hn]
  · rw [hsplit20, List.take_left' (length_natToBeBytes 20 _)]
    have hlt : nonce < 256 ^ 12 := lt_of_lt_of_le hn (by norm_num)
    have hdiv : P / 256 ^ 12 = beBytesToNat funder := by
      rw [hP, mul_comm (beBytesToNat funder) ((256 : Nat) ^ 12),
        Nat.mul_add_div (by positivity), Nat.div_eq_of_lt hlt, Nat.add_zero]
    rw [hdiv]
    have h := natToBeBytes_beBytesToNat funder hbytes
    rwa [hlen] at h

/-- Witness instantiating C1 at a concrete funder address and nonce. -/
theorem c1_deposit_id_roundtrip_witness :
    nonce_from_deposit_id (deposit_id_from_nonce
      [222, 173, 190, 239, 1, 2, 3, 4, 5, 6, 7, 8, 9, 10, 11, 12, 13, 14, 15, 16] 777) = 777 ∧
    (DepositId.mk (deposit_id_from_nonce
      [222, 173, 190, 239, 1, 2, 3, 4, 5, 6, 7, 8, 9, 10, 11, 12, 13, 14, 15, 16] 777)
      (List.replicate 20 7)).funder
      = [222, 173, 190, 239, 1, 2, 3, 4, 5, 6, 7, 8, 9, 10, 11, 12, 13, 14, 15, 16] :=
  c1_deposit_id_roundtrip _ 777 (List.replicate 20 7) (by decide) (by decide) (by decide)

/-! ## Textual deposit-id serialization (`deposit_id.rs`) -/

/-- Lowercase hexadecimal digit for a nibble, as Rust `{:x}` formatting
prints it. -/
def hexDigitChar (n : Nat) : Char :=
  if n < 10 then Char.ofNat (48 + n) else Char.ofNat (87 + n)

/-- Minimal (no leading zeros) lowercase hex digits of `n`, empty for 0;
the recursion of the `uint` crate `LowerHex` nibble loop, with explicit
fuel for structural termination. -/
def hexDigitsAux : Nat → Nat → List Char
  | 0, _ => []
  | fuel + 1, n =>
    if n = 0 then []
    else hexDigitsAux fuel (n / 16) ++ [hexDigitChar (n % 16)]

/-- Minimal lowercase hex digits of `n` (empty list for 0). -/
def hexDigitsMin (n : Nat) : List Char :=
  hexDigitsAux (n + 1) n

/-- Digits printed by `{:#x}` on a `U256` after the `0x` prefix: `0` for
zero, minimal hex digits otherwise (the `uint` crate latch loop). -/
def u256HexDigits (n : Nat) : List Char :=
  if n = 0 then ['0'] else hexDigitsMin n

/-- Digits printed by `{:#x}` on an `H160` after the `0x` prefix: every
byte as two lowercase hex digits, full width (the `fixed-hash` crate). -/
def addrHexChars : List Nat → List Char
  | [] => []
  | b :: rest => hexDigitChar (b / 16) :: hexDigitChar (b % 16) :: addrHexChars rest

/-- Nibble sequence of an address, high nibble first (decoding helper). -/
def addrNibbles : List Nat → List Nat
  | [] => []
  | b :: rest => b / 16 :: b % 16 :: addrNibbles rest

/-- Value of a hex digit character, either case, as the `hex` /
`rustc_hex` crates accept it. -/
def hexCharToNat (c : Char) : Option Nat :=
  if '0' ≤ c ∧ c ≤ '9' then some (c.toNat - 48)
  else if 'a' ≤ c ∧ c ≤ 'f' then some (c.toNat - 87)
  else if 'A' ≤ c ∧ c ≤ 'F' then some (c.toNat - 55)
  else none

/-- Accumulate hex digits left to right; any non-digit fails. -/
def parseHexDigits (l : List Char) : Option Nat :=
  l.foldl
    (fun acc c =>
      match acc, hexCharToNat c with
      | some v, some d => some (v * 16 + d)
      | _, _ => none)
    (some 0)

/-- Rust `str::strip_prefix("0x")` with fallback to the whole string, as
both `uint` and `fixed-hash` parsers begin. -/
def stripHexPrefix (s : List Char) : List Char :=
  if s.take 2 = ['0', 'x'] then s.drop 2 else s

/-- Embedding of the `uint` crate `FromStr` for `U256` (which
`U256::from_str_radix(_, 16)` delegates to): strip an optional `0x`
prefix, reject more than 64 digits, then parse hex digits of either
case. -/
def u256FromStr (s : List Char) : Except String Nat :=
  if (stripHexPrefix s).length > 64 then Except.error "Invalid input length"
  else
    match parseHexDigits (stripHexPrefix s) with
    | some v => Except.ok v
    | none => Except.error "Invalid character"

/-- Pair up nibbles into bytes (helper for `H160` hex decoding). -/
def nibblesToBytes : List Nat → List Nat
  | h :: l :: rest => (h * 16 + l) :: nibblesToBytes rest
  | _ => []

/-- Parse every character as a hex nibble or fail. -/
def charsToNibbles : List Char → Option (List Nat)
  | [] => some []
  | c :: rest =>
    match hexCharToNat c, charsToNibbles rest with
    | some d, some ds => some (d :: ds)
    | _, _ => none

/-- Embedding of the `fixed-hash` crate `FromStr` for `H160`
(`Address::from_str`): strip an optional `0x` prefix, require exactly 40
hex digits, and read them as 20 bytes. -/
def addressFromStr (s : List Char) : Except String (List Nat) :=
  if (stripHexPrefix s).length = 40 then
    match charsToNibbles (stripHexPrefix s) with
    | some ds => Except.ok (nibblesToBytes ds)
    | none => Except.error "Invalid character"
  else Except.error "Invalid input length"

/-- Rust `str::split('-')`: split at every dash, keeping empty pieces. -/
def splitOnDash : List Char → List (List Char)
  | [] => [[]]
  | c :: rest =>
    let r := splitOnDash rest
    if c = '-' then [] :: r
    else
      match r with
      | h :: t => (c :: h) :: t
      | [] => [[c]]

/-- Embedding of `DepositId::to_db_string` (deposit_id.rs):
`format!("{:#x}-{:#x}", deposit_id, lock_address)`. -/
def DepositId.to_db_string (d : DepositId) : List Char :=
  '0' :: 'x' :: u256HexDigits d.deposit_id
    ++ '-' :: '0' :: 'x' :: addrHexChars d.lock_address

/-- Embedding of `DepositId::from_db_string` (deposit_id.rs): split on
dashes, require exactly two pieces, parse the id with
`U256::from_str_radix(_, 16)` and the lock address with
`Address::from_str`. -/
def DepositId.from_db_string (s : List Char) : Except String DepositId :=
  match splitOnDash s with
  | [p0, p1] =>
    match u256FromStr p0 with
    | Except.error e => Except.error ("Invalid depositId: " ++ e)
    | Except.ok v =>
      match addressFromStr p1 with
      | Except.error e => Except.error ("Invalid lockAddress: " ++ e)
      | Except.ok a => Except.ok (DepositId.mk v a)
  | _ => Except.error "Invalid depositId format"

theorem hexChar_of_hexDigitChar : ∀ m, m < 16 → hexCharToNat (hexDigitChar m) = some m := by
  decide

theorem hexDigitChar_ne_dash : ∀ m, m < 16 → hexDigitChar m ≠ '-' := by
  decide

theorem mem_hexDigitsAux_ne_dash :
    ∀ (fuel n : Nat) (c : Char), c ∈ hexDigitsAux fuel n → c ≠ '-'
  | 0, _, c, h => absurd h (List.not_mem_nil c)
  | fuel + 1, n, c, h => by
    by_cases hn : n = 0
    · simp [hexDigitsAux, hn] at h
    · rw [hexDigitsAux, if_neg hn] at h
      rcases List.mem_append.mp h with h1 | h2
      · exact mem_hexDigitsAux_ne_dash fuel (n / 16) c h1
      · have hc : c = hexDigitChar (n % 16) := by simpa using h2
        rw [hc]
        exact hexDigitChar_ne_dash _ (Nat.mod_lt n (by norm_num))

theorem length_hexDigitsAux_le :
    ∀ (fuel k n : Nat), n < 16 ^ k → (hexDigitsAux fuel n).length ≤ k
  | 0, _, _, _ => by simp [hexDigitsAux]
  | fuel + 1, k, n, h => by
    by_cases hn : n = 0
    · simp [hexDigitsAux, hn]
    · rw [hexDigitsAux, if_neg hn]
      cases k with
      | zero => simp only [pow_zero, Nat.lt_one_iff] at h; exact absurd h hn
      | succ k =>
        have hdiv : n / 16 < 16 ^ k := by
          have hmul : n < 16 ^ k * 16 := by rw [← pow_succ]; exact h
          omega
        have ih := length_hexDigitsAux_le fuel k (n / 16) hdiv
        simp only [List.length_append, List.length_cons, List.length_nil]
        omega

theorem parseHexDigits_hexDigitsAux :
    ∀ (fuel n : Nat), n < fuel → parseHexDigits (hexDigitsAux fuel n) = some n
  | 0, n, h => absurd h (Nat.not_lt_zero n)
  | fuel + 1, n, h => by
    by_cases hn : n = 0
    · simp [hexDigitsAux, hn, parseHexDigits]
    · rw [hexDigitsAux, if_neg hn]
      have hfuel : n / 16 < fuel := by omega
      have ih := parseHexDigits_hexDigitsAux fuel (n / 16) hfuel
      unfold parseHexDigits at ih ⊢
      rw [List.foldl_append, ih]
      simp [hexChar_of_hexDigitChar (n % 16) (Nat.mod_lt n (by norm_num))]
      omega

theorem length_addrHexChars : ∀ addr : List Nat, (addrHexChars addr).length = 2 * addr.length
  | [] => rfl
  | b :: rest => by
    simp [addrHexChars, length_addrHexChars rest]
    ring

theorem mem_addrHexChars_ne_dash :
    ∀ (addr : List Nat), (∀ b ∈ addr, b < 256) → ∀ c ∈ addrHexChars addr, c ≠ '-'
  | [], _, c, h => absurd h (List.not_mem_nil c)
  | b :: rest, hb, c, h => by
    have hblt : b < 256 := hb b (List.mem_cons_self b rest)
    simp only [addrHexChars, List.mem_cons] at h
    rcases h with h | h | h
    · rw [h]; exact hexDigitChar_ne_dash _ (by omega)
    · rw [h]; exact hexDigitChar_ne_dash _ (by omega)
    · exact mem_addrHexChars_ne_dash rest (fun x hx => hb x (List.mem_cons_of_mem b hx)) c h

theorem charsToNibbles_addrHexChars :
    ∀ (addr : List Nat), (∀ b ∈ addr, b < 256) →
      charsToNibbles (addrHexChars addr) = some (addrNibbles addr)
  | [], _ => rfl
  | b :: rest, hb => by
    have hblt : b < 256 := hb b (List.mem_cons_self b rest)
    have ih := charsToNibbles_addrHexChars rest (fun x hx => hb x (List.mem_cons_of_mem b hx))
    have h1 : hexCharToNat (hexDigitChar (b / 16)) = some (b / 16) :=
      hexChar_of_hexDigitChar _ (by omega)
    have h2 : hexCharToNat (hexDigitChar (b % 16)) = some (b % 16) :=
      hexChar_of_hexDigitChar _ (by omega)
    simp [addrHexChars, charsToNibbles, h1, h2, ih, addrNibbles]

theorem nibblesToBytes_addrNibbles :
    ∀ (addr : List Nat), nibblesToBytes (addrNibbles addr) = addr
  | [] => rfl
  | b :: rest => by
    have hbyte : b / 16 * 16 + b % 16 = b := by omega
    simp [addrNibbles, nibblesToBytes, hbyte, nibblesToBytes_addrNibbles rest]

theorem splitOnDash_no_dash : ∀ l : List Char, '-' ∉ l → splitOnDash l = [l]
  | [], _ => rfl
  | c :: rest, h => by
    have hc : c ≠ '-' := fun hh => h (hh ▸ List.mem_cons_self c rest)
    have hr : '-' ∉ rest := fun hh => h (List.mem_cons_of_mem c hh)
    simp [splitOnDash, splitOnDash_no_dash rest hr, hc]

theorem splitOnDash_append : ∀ (a b : List Char), '-' ∉ a →
    splitOnDash (a ++ '-' :: b) = a :: splitOnDash b
  | [], b, _ => by simp [splitOnDash]
  | c :: a, b, h => by
    have hc : c ≠ '-' := fun hh => h (hh ▸ List.mem_cons_self c a)
    have ha : '-' ∉ a := fun hh => h (List.mem_cons_of_mem c hh)
    simp [splitOnDash, splitOnDash_append a b ha, hc]

theorem stripHexPrefix_cons (l : List Char) :
    stripHexPrefix ('0' :: 'x' :: l) = l := by
  have hc : List.take 2 ('0' :: 'x' :: l) = ['0', 'x'] := rfl
  unfold stripHexPrefix
  rw [if_pos hc]
  rfl

theorem u256FromStr_roundtrip (n : Nat) (h : n < 2 ^ 256) :
    u256FromStr ('0' :: 'x' :: u256HexDigits n) = Except.ok n := by
  by_cases hn : n = 0
  · subst hn; rfl
  · have hdig : u256HexDigits n = hexDigitsAux (n + 1) n := by
      simp [u256HexDigits, hn, hexDigitsMin]
    have hlen : (hexDigitsAux (n + 1) n).length ≤ 64 := by
      apply length_hexDigitsAux_le
      calc n < 2 ^ 256 := h
        _ = 16 ^ 64 := by norm_num
    have hparse := parseHexDigits_hexDigitsAux (n + 1) n (Nat.lt_succ_self n)
    unfold u256FromStr
    rw [stripHexPrefix_cons, hdig, if_neg (by omega), hparse]

theorem addressFromStr_roundtrip (addr : List Nat) (hlen : addr.length = 20)
    (hbytes : ∀ b ∈ addr, b < 256) :
    addressFromStr ('0' :: 'x' :: addrHexChars addr) = Except.ok addr := by
  unfold addressFromStr
  have h40 : (addrHexChars addr).length = 40 := by
    rw [length_addrHexChars, hlen]
  rw [stripHexPrefix_cons, if_pos h40, charsToNibbles_addrHexChars addr hbytes]
  simp only [nibblesToBytes_addrNibbles]

/-- C10. Serializing a `DepositId` with `to_db_string` and parsing the
text back with `from_db_string` recovers the same value, including ids
whose hex form drops leading zero digits. -/
theorem c10_db_string_roundtrip (d : DepositId)
    (hid : d.deposit_id < 2 ^ 256)
    (hlen : d.lock_address.length = 20)
    (hbytes : ∀ b ∈ d.lock_address, b < 256) :
    DepositId.from_db_string (DepositId.to_db_string d) = Except.ok d := by
  have hrepr : DepositId.to_db_string d
      = ('0' :: 'x' :: u256HexDigits d.deposit_id)
        ++ '-' :: ('0' :: 'x' :: addrHexChars d.lock_address) := by
    simp [DepositId.to_db_string]
  have hnd0 : '-' ∉ ('0' :: 'x' :: u256HexDigits d.deposit_id) := by
    intro hmem
    simp only [List.mem_cons] at hmem
    rcases hmem with h | h | h
    · exact absurd h (by decide)
    · exact absurd h (by decide)
    · by_cases hz : d.deposit_id = 0
      · rw [u256HexDigits, if_pos hz] at h
        simp only [List.mem_singleton] at h
        exact absurd h (by decide)
      · rw [u256HexDigits, if_neg hz] at h
        unfold hexDigitsMin at h
        exact mem_hexDigitsAux_ne_dash _ _ _ h rfl
  have hnd1 : '-' ∉ ('0' :: 'x' :: addrHexChars d.lock_address) := by
    intro hmem
    simp only [List.mem_cons] at hmem
    rcases hmem with h | h | h
    · exact absurd h (by decide)
    · exact absurd h (by decide)
    · exact mem_addrHexChars_ne_dash d.lock_address hbytes _ h rfl
  have hsplit : splitOnDash (DepositId.to_db_string d)
      = [('0' :: 'x' :: u256HexDigits d.deposit_id),
         ('0' :: 'x' :: addrHexChars d.lock_address)] := by
    rw [hrepr, splitOnDash_append _ _ hnd0,
      splitOnDash_no_dash _ hnd1]
  unfold DepositId.from_db_string
  rw [hsplit]
  simp only [u256FromStr_roundtrip d.deposit_id hid,
    addressFromStr_roundtrip d.lock_address hlen hbytes]

/-- Witness instantiating C10 on an id whose hex form has leading zeros
dropped (5 prints as a single digit). -/
theorem c10_db_string_roundtrip_witness :
    DepositId.from_db_string (DepositId.to_db_string
      (DepositId.mk 5 [1, 2, 3, 4, 5, 6, 7, 8, 9, 10, 11, 12, 13, 14, 15, 16, 17, 18, 19, 255]))
      = Except.ok
      (DepositId.mk 5 [1, 2, 3, 4, 5, 6, 7, 8, 9, 10, 11, 12, 13, 14, 15, 16, 17, 18, 19, 255]) :=
  c10_db_string_roundtrip _ (by decide) (by decide) (by decide)

/-! ## ABI word-level decoding primitives (the `ethabi` crate) -/

/-- Read the 32-byte word at byte offset `i` (ethabi `peek_32_bytes`);
fails with `InvalidData` when out of range. -/
def abiWord (data : List Nat) (i : Nat) : Except String Nat :=
  if i + 32 ≤ data.length then Except.ok (beBytesToNat ((data.drop i).take 32))
  else Except.error "Invalid data: not enough bytes"

/-- Convert an offset/length word to a usize (ethabi `as_usize`): the
first 28 bytes must be zero, so the value must be below `2^32`. -/
def abiUsize (w : Nat) : Except String Nat :=
  if w < 2 ^ 32 then Except.ok w else Except.error "Invalid data: offset out of range"

/-- Take `len` raw bytes at offset `off` (ethabi `take_bytes`, lenient
mode as used by `ethabi::decode`). -/
def abiTakeBytes (data : List Nat) (off len : Nat) : Except String (List Nat) :=
  if off + len ≤ data.length then Except.ok ((data.drop off).take len)
  else Except.error "Invalid data: bytes out of range"

/-- Decode a word as a bool (ethabi `as_bool`): the first 31 bytes must
be zero; the value is whether the last byte equals 1. -/
def abiBool (w : Nat) : Except String Bool :=
  if w < 256 then Except.ok (w == 1) else Except.error "Invalid data: not a bool"

/-- Modelled from the spec: `datetime_from_u256_timestamp` lives in
`erc20_payment_lib_common::utils`, which is outside the provided sources.
Per the spec, a timestamp must convert to a valid calendar instant or the
conversion fails; datetimes are modelled by their second count, with the
chrono upper bound on `DateTime::from_timestamp`. -/
def datetime_from_u256_timestamp (ts : Nat) : Option Nat :=
  if ts ≤ 8210266876799 then some ts else none

/-- Modelled from the spec: `datetime_from_u256_with_option` (same
missing utils module). The attestation record stores optional
expiration/revocation instants, with an on-chain value of zero denoting
absence, and out-of-range values failing as above. -/
def datetime_from_u256_with_option (ts : Nat) : Option Nat :=
  if ts = 0 then none else datetime_from_u256_timestamp ts

/-! ## `DepositView::decode_from_bytes` (eth.rs) -/

/-- Embedding of the `DepositView` record decoded from `getDeposit`. -/
structure DepositView where
  id : Nat
  nonce : Nat
  funder : Nat
  spender : Nat
  amount : Nat
  valid_to : Nat
  deriving Repr, DecidableEq

/-- Embedding of `DepositView::decode_from_bytes` (eth.rs): reject any
buffer whose length is not 6 x 32 bytes, then decode the six static
words (uint256, uint64, address, address, uint128, uint64). The
`as_u64`/`as_u128` casts panic when a word exceeds the target width;
those panics are modelled as `panic:` errors. -/
def DepositView.decode_from_bytes (bytes : List Nat) : Except String DepositView :=
  if bytes.length ≠ 6 * 32 then
    Except.error ("Invalid response length: " ++ toString bytes.length
      ++ ", expected " ++ toString (6 * 32))
  else
    match abiWord bytes 0, abiWord bytes 32, abiWord bytes 64,
        abiWord bytes 96, abiWord bytes 128, abiWord bytes 160 with
    | Except.ok w0, Except.ok w1, Except.ok w2,
        Except.ok w3, Except.ok w4, Except.ok w5 =>
      if w1 ≥ 2 ^ 64 then Except.error "panic: Integer overflow when casting to u64"
      else if w4 ≥ 2 ^ 128 then Except.error "panic: Integer overflow when casting to u128"
      else if w5 ≥ 2 ^ 64 then Except.error "panic: Integer overflow when casting to u64"
      else Except.ok { id := w0, nonce := w1, funder := w2 % 2 ^ 160,
                       spender := w3 % 2 ^ 160, amount := w4, valid_to := w5 }
    | _, _, _, _, _, _ => Except.error "Failed to decode deposit view from bytes"

/-- C7. `DepositView::decode_from_bytes` fails on every buffer whose
length is not exactly 192 bytes, with the length error, and a successful
decode is only possible on a 192-byte input. -/
theorem c7_deposit_view_length (bytes : List Nat) :
    (bytes.length ≠ 192 →
      DepositView.decode_from_bytes bytes
        = Except.error ("Invalid response length: " ++ toString bytes.length
            ++ ", expected " ++ toString (6 * 32))) ∧
    (∀ v, DepositView.decode_from_bytes bytes = Except.ok v → bytes.length = 192) := by
  constructor
  · intro h
    have h6 : bytes.length ≠ 6 * 32 := by omega
    unfold DepositView.decode_from_bytes
    rw [if_pos h6]
  · intro v hv
    by_contra hne
    have h6 : bytes.length ≠ 6 * 32 := by omega
    unfold DepositView.decode_from_bytes at hv
    rw [if_pos h6] at hv
    exact absurd hv (by simp)

/-- Witness instantiating C7 on a 3-byte buffer. -/
theorem c7_deposit_view_length_witness :
    DepositView.decode_from_bytes [0, 1, 2]
      = Except.error ("Invalid response length: " ++ toString ([0, 1, 2] : List Nat).length
          ++ ", expected " ++ toString (6 * 32)) :=
  (c7_deposit_view_length [0, 1, 2]).1 (by decide)

/-! ## Attestation decoding (`get_attestation_details`, eth.rs) -/

/-- Raw fields of the `getAttestation` 10-field tuple, as `ethabi`
returns them (fixed bytes as byte lists, uints as words, addresses as
the low 20 bytes of their word). -/
structure AttestationTuple where
  uid : List Nat
  schema : List Nat
  time : Nat
  expiration_time : Nat
  revocation_time : Nat
  ref_uid : List Nat
  recipient : Nat
  attester : Nat
  revocable : Bool
  data : List Nat
  deriving Repr, DecidableEq

/-- Decode of
`[Tuple[bytes32, bytes32, uint64, uint64, uint64, bytes32, address, address, bool, bytes]]`
as `ethabi::decode` performs it: the dynamic tuple is reached through an
offset word, its static fields occupy consecutive words, and the
trailing `bytes` field is reached through a tuple-relative offset. -/
def decodeAttestationTuple (bytes : List Nat) : Except String AttestationTuple :=
  match abiWord bytes 0 with
  | Except.error e => Except.error e
  | Except.ok w =>
    match abiUsize w with
    | Except.error e => Except.error e
    | Except.ok off0 =>
      if off0 > bytes.length then Except.error "Invalid data: tuple offset out of range"
      else
        let tail := bytes.drop off0
        match abiTakeBytes tail 0 32, abiTakeBytes tail 32 32,
            abiWord tail 64, abiWord tail 96, abiWord tail 128,
            abiTakeBytes tail 160 32, abiWord tail 192, abiWord tail 224,
            abiWord tail 256, abiWord tail 288 with
        | Except.ok uid, Except.ok schema, Except.ok time, Except.ok expiration,
            Except.ok revocation, Except.ok refUid, Except.ok recipient,
            Except.ok attester, Except.ok boolWord, Except.ok dataOffWord =>
          match abiBool boolWord with
          | Except.error e => Except.error e
          | Except.ok revocable =>
            match abiUsize dataOffWord with
            | Except.error e => Except.error e
            | Except.ok dataOff =>
              match abiWord tail dataOff with
              | Except.error e => Except.error e
              | Except.ok lenWord =>
                match abiUsize lenWord with
                | Except.error e => Except.error e
                | Except.ok len =>
                  match abiTakeBytes tail (dataOff + 32) len with
                  | Except.error e => Except.error e
                  | Except.ok data =>
                    Except.ok { uid := uid, schema := schema, time := time,
                                expiration_time := expiration, revocation_time := revocation,
                                ref_uid := refUid, recipient := recipient % 2 ^ 160,
                                attester := attester % 2 ^ 160, revocable := revocable,
                                data := data }
        | _, _, _, _, _, _, _, _, _, _ =>
          Except.error "Invalid data: attestation tuple too short"

/-- Embedding of the `Attestation` record (eth.rs). -/
structure Attestation where
  uid : List Nat
  schema : List Nat
  time : Nat
  expiration_time : Option Nat
  revocation_time : Option Nat
  ref_uid : List Nat
  recipient : Nat
  attester : Nat
  revocable : Bool
  data : List Nat
  deriving Repr, DecidableEq

/-- Embedding of `get_attestation_details` (eth.rs) past the `eth_call`:
given the call reply, decode the tuple; an all-zero uid short-circuits to
the absent value before any record is built. -/
def get_attestation_details (reply : Except String (List Nat)) :
    Except String (Option Attestation) :=
  match reply with
  | Except.error e => Except.error e
  | Except.ok res =>
    match decodeAttestationTuple res with
    | Except.error e => Except.error e
    | Except.ok t =>
      if t.uid = List.replicate 32 0 then Except.ok none
      else
        match datetime_from_u256_with_option t.time with
        | none => Except.error "Attestation timestamp out of range"
        | some time =>
          Except.ok (some
            { uid := t.uid
              schema := t.schema
              time := time
              expiration_time := datetime_from_u256_with_option t.expiration_time
              revocation_time := datetime_from_u256_with_option t.revocation_time
              ref_uid := t.ref_uid
              recipient := t.recipient
              attester := t.attester
              revocable := t.revocable
              data := t.data })

/-- C8. When the decoded `getAttestation` tuple has an all-zero uid,
`get_attestation_details` returns the absent value, and no returned
attestation record ever carries a zero uid. -/
theorem c8_zero_uid_absent (bytes : List Nat) (t : AttestationTuple)
    (hdec : decodeAttestationTuple bytes = Except.ok t) :
    (t.uid = List.replicate 32 0 →
      get_attestation_details (Except.ok bytes) = Except.ok none) ∧
    (∀ a, get_attestation_details (Except.ok bytes) = Except.ok (some a) →
      a.uid ≠ List.replicate 32 0) := by
  constructor
  · intro hz
    simp only [get_attestation_details, hdec, if_pos hz]
  · intro a ha
    simp only [get_attestation_details, hdec] at ha
    by_cases hz : t.uid = List.replicate 32 0
    · rw [if_pos hz] at ha
      exact absurd ha (by simp)
    · rw [if_neg hz] at ha
      cases hdt : datetime_from_u256_with_option t.time with
      | none => rw [hdt] at ha; exact absurd ha (by simp)
      | some time =>
        rw [hdt] at ha
        simp only [Except.ok.injEq, Option.some.injEq] at ha
        rw [← ha]
        exact hz

instance {ε α : Type} [DecidableEq ε] [DecidableEq α] : DecidableEq (Except ε α) := by
  intro a b
  cases a <;> cases b
  case error.error e1 e2 =>
    exact if h : e1 = e2 then isTrue (by rw [h]) else isFalse (by intro hh; cases hh; exact h rfl)
  case error.ok e1 v2 => exact isFalse (by intro hh; cases hh)
  case ok.error v1 e2 => exact isFalse (by intro hh; cases hh)
  case ok.ok v1 v2 =>
    exact if h : v1 = v2 then isTrue (by rw [h]) else isFalse (by intro hh; cases hh; exact h rfl)

/-- Concrete `getAttestation` reply with an all-zero uid (witness data
for C8): offset word, ten head words, empty trailing bytes. -/
def c8Bytes : List Nat :=
  natToBeBytes 32 32 ++ List.replicate 32 0 ++ natToBeBytes 32 99
    ++ natToBeBytes 32 1600000000 ++ natToBeBytes 32 0 ++ natToBeBytes 32 0
    ++ List.replicate 32 0 ++ natToBeBytes 32 7 ++ natToBeBytes 32 8
    ++ natToBeBytes 32 1 ++ natToBeBytes 32 320 ++ natToBeBytes 32 0

/-- Witness instantiating C8 on a concrete zero-uid reply. -/
theorem c8_zero_uid_absent_witness :
    get_attestation_details (Except.ok c8Bytes) = Except.ok none :=
  (c8_zero_uid_absent c8Bytes
    { uid := List.replicate 32 0
      schema := natToBeBytes 32 99
      time := 1600000000
      expiration_time := 0
      revocation_time := 0
      ref_uid := List.replicate 32 0
      recipient := 7
      attester := 8
      revocable := true
      data := [] }
    (by decide)).1 (by decide)

/-! ## Balance resolution (`get_balance*`, eth.rs; `decode_call_with_details`, contracts.rs) -/

/-- Calls issued to the RPC collaborator, in order. -/
inductive RpcCall where
  | ethCall
  | ethBlock
  | ethBalance
  | ethBlockNumber
  deriving Repr, DecidableEq

/-- Embedding of `CallWithDetails` (contracts.rs). -/
structure CallWithDetails where
  chain_id : Nat
  eth_balance : Nat
  block_number : Nat
  block_datetime : Nat
  deriving Repr, DecidableEq

/-- Embedding of `decode_call_with_details` (contracts.rs):
`ethabi::decode` of `[Tuple[uint256, uint256, uint256, uint256, bytes]]`
(offset word, four static words, offset/length/content for the nested
bytes), then the `as_u64` casts (panicking on overflow, modelled as
`panic:` errors) and the timestamp conversion. -/
def decode_call_with_details (bytes : List Nat) :
    Except String (CallWithDetails × List Nat) :=
  match abiWord bytes 0 with
  | Except.error e => Except.error e
  | Except.ok w =>
    match abiUsize w with
    | Except.error e => Except.error e
    | Except.ok off0 =>
      if off0 > bytes.length then Except.error "Invalid data: tuple offset out of range"
      else
        let tail := bytes.drop off0
        match abiWord tail 0, abiWord tail 32, abiWord tail 64, abiWord tail 96,
            abiWord tail 128 with
        | Except.ok chainId, Except.ok number, Except.ok timestamp, Except.ok balance,
            Except.ok bytesOffWord =>
          match abiUsize bytesOffWord with
          | Except.error e => Except.error e
          | Except.ok bytesOff =>
            match abiWord tail bytesOff with
            | Except.error e => Except.error e
            | Except.ok lenWord =>
              match abiUsize lenWord with
              | Except.error e => Except.error e
              | Except.ok len =>
                match abiTakeBytes tail (bytesOff + 32) len with
                | Except.error e => Except.error e
                | Except.ok callResult =>
                  if chainId ≥ 2 ^ 64 then
                    Except.error "panic: Integer overflow when casting to u64"
                  else if number ≥ 2 ^ 64 then
                    Except.error "panic: Integer overflow when casting to u64"
                  else
                    match datetime_from_u256_timestamp timestamp with
                    | none => Except.error "Failed to convert timestamp to datetime"
                    | some dt =>
                      Except.ok
                        ({ chain_id := chainId
                           eth_balance := balance
                           block_number := number
                           block_datetime := dt }, callResult)
        | _, _, _, _, _ => Except.error "Failed to decode call with details"

/-- `U256::from_big_endian`: asserts the slice is at most 32 bytes long
(panicking otherwise) and reads it right-aligned. -/
def u256_from_big_endian (slice : List Nat) : Except String Nat :=
  if slice.length ≤ 32 then Except.ok (beBytesToNat slice)
  else Except.error "panic: assertion failed: slice length exceeds 32"

/-- Embedding of `GetBalanceArgs` (eth.rs); addresses are their numeric
value. -/
structure GetBalanceArgs where
  address : Nat
  token_address : Option Nat
  call_with_details : Option Nat
  block_number : Option Nat
  chain_id : Option Nat
  deriving Repr, DecidableEq

/-- Embedding of `GetBalanceResult` (eth.rs). -/
structure GetBalanceResult where
  gas_balance : Option Nat
  token_balance : Option Nat
  block_number : Nat
  block_datetime : Nat
  deriving Repr, DecidableEq

/-- The block header fields `get_balance_simple` reads from `eth_block`. -/
structure BlockInfo where
  number : Option Nat
  timestamp : Nat
  deriving Repr, DecidableEq

/-- Prefix test on character lists (helper for substring search). -/
def isPrefixList : List Char → List Char → Bool
  | [], _ => true
  | _ :: _, [] => false
  | a :: as, b :: bbs => a == b && isPrefixList as bbs

/-- Substring search, as Rust `str::contains` with a literal pattern. -/
def containsSubList (needle : List Char) : List Char → Bool
  | [] => needle.isEmpty
  | c :: rest => isPrefixList needle (c :: rest) || containsSubList needle rest

/-- The balance-path error classification (eth.rs line 536):
`e.to_string().to_lowercase().contains("insufficient funds")`. Lowercase
is per-character, which coincides with Rust on ASCII error text. -/
def containsInsufficientFunds (e : String) : Bool :=
  containsSubList ("insufficient funds".data) (e.data.map Char.toLower)

/-- The wrapped error message the atomic path produces for errors that do
not match the classification:
`"Error getting balance for account: {:#x} - {}"`. -/
def wrapMsg (address : Nat) (e : String) : String :=
  "Error getting balance for account: 0x"
    ++ String.mk (addrHexChars (natToBeBytes 20 address)) ++ " - " ++ e

/-- The success arm of the wrapper call after the chain-id check: parse
the nested return with `U256::from_big_endian` and assemble the result. -/
def wrapperTokenResult (blockInfo : CallWithDetails) (callResult : List Nat) :
    Except String (Option GetBalanceResult) :=
  match u256_from_big_endian callResult with
  | Except.error e => Except.error e
  | Except.ok tokenBalance =>
    Except.ok (some
      { gas_balance := some blockInfo.eth_balance
        token_balance := some tokenBalance
        block_number := blockInfo.block_number
        block_datetime := blockInfo.block_datetime })

/-- Embedding of `get_balance_using_contract_wrapper` (eth.rs), given the
reply of its single `eth_call`: decode the bundled tuple, verify the
chain id when one is expected, and parse the nested return; an RPC error
whose lowercased text contains `"insufficient funds"` yields `Ok(None)`
(fall back), any other RPC error is wrapped and final. -/
def get_balance_using_contract_wrapper (args : GetBalanceArgs)
    (callReply : Except String (List Nat)) :
    Except String (Option GetBalanceResult) × List RpcCall :=
  match callReply with
  | Except.ok res =>
    match decode_call_with_details res with
    | Except.error e => (Except.error e, [RpcCall.ethCall])
    | Except.ok (blockInfo, callResult) =>
      match args.chain_id with
      | some chainId =>
        if blockInfo.chain_id ≠ chainId then
          (Except.error ("Invalid chain id in response: " ++ toString blockInfo.chain_id
            ++ ", expected " ++ toString chainId), [RpcCall.ethCall])
        else (wrapperTokenResult blockInfo callResult, [RpcCall.ethCall])
      | none => (wrapperTokenResult blockInfo callResult, [RpcCall.ethCall])
  | Except.error e =>
    if containsInsufficientFunds e then (Except.ok none, [RpcCall.ethCall])
    else (Except.error (wrapMsg args.address e), [RpcCall.ethCall])

/-- Embedding of `get_balance_simple` (eth.rs), given the replies of its
`eth_block`, `eth_balance` and (when a token address is supplied)
`balanceOf` `eth_call`: resolve the block, fetch the gas balance, and
require exactly 32 returned bytes from the token call. -/
def get_balance_simple (args : GetBalanceArgs)
    (blockReply : Except String (Option BlockInfo))
    (balanceReply : Except String Nat)
    (tokenCallReply : Except String (List Nat)) :
    Except String GetBalanceResult × List RpcCall :=
  match blockReply with
  | Except.error e => (Except.error e, [RpcCall.ethBlock])
  | Except.ok none => (Except.error "Cannot found block_info", [RpcCall.ethBlock])
  | Except.ok (some blockInfo) =>
    match blockInfo.number with
    | none => (Except.error "Failed to found block number in block info", [RpcCall.ethBlock])
    | some blockNumber =>
      match balanceReply with
      | Except.error e => (Except.error e, [RpcCall.ethBlock, RpcCall.ethBalance])
      | Except.ok gasBalance =>
        match datetime_from_u256_timestamp blockInfo.timestamp with
        | none => (Except.error "Failed to found block date in block info",
                   [RpcCall.ethBlock, RpcCall.ethBalance])
        | some blockDate =>
          match args.token_address with
          | some tokenAddress =>
            match tokenCallReply with
            | Except.error e =>
              (Except.error e, [RpcCall.ethBlock, RpcCall.ethBalance, RpcCall.ethCall])
            | Except.ok res =>
              if res.length ≠ 32 then
                (Except.error ("Invalid balance response. Probably not a valid ERC20 contract 0x"
                    ++ String.mk (addrHexChars (natToBeBytes 20 tokenAddress))),
                 [RpcCall.ethBlock, RpcCall.ethBalance, RpcCall.ethCall])
              else
                (Except.ok
                  { gas_balance := some gasBalance
                    token_balance := some (beBytesToNat res)
                    block_number := blockNumber
                    block_datetime := blockDate },
                 [RpcCall.ethBlock, RpcCall.ethBalance, RpcCall.ethCall])
          | none =>
            (Except.ok
              { gas_balance := some gasBalance
                token_balance := none
                block_number := blockNumber
                block_datetime := blockDate },
             [RpcCall.ethBlock, RpcCall.ethBalance])

/-- Embedding of `get_balance` (eth.rs): the atomic wrapper path runs only
when both a token address and a wrapper-contract address are supplied;
its `Ok(None)` outcome falls back to `get_balance_simple`, its error is
final. -/
def get_balance (args : GetBalanceArgs)
    (wrapperReply : Except String (List Nat))
    (blockReply : Except String (Option BlockInfo))
    (balanceReply : Except String Nat)
    (tokenCallReply : Except String (List Nat)) :
    Except String GetBalanceResult × List RpcCall :=
  match args.token_address, args.call_with_details with
  | some _, some _ =>
    match get_balance_using_contract_wrapper args wrapperReply with
    | (Except.error e, calls) => (Except.error e, calls)
    | (Except.ok (some balance), calls) => (Except.ok balance, calls)
    | (Except.ok none, calls) =>
      let simple := get_balance_simple args blockReply balanceReply tokenCallReply
      (simple.1, calls ++ simple.2)
  | _, _ => get_balance_simple args blockReply balanceReply tokenCallReply

/-- C2 (amended). For every successfully decoded wrapper-call response
whose nested return holds at most 32 bytes (as `balanceOf` always
returns), the token balance in the result is the big-endian value of
those bytes — which are exactly the last 32 bytes; a longer nested
return panics in `U256::from_big_endian` instead of parsing the last
32 bytes (see the counterexample). -/
theorem c2_wrapper_token_balance (args : GetBalanceArgs) (res : List Nat)
    (blockInfo : CallWithDetails) (callResult : List Nat)
    (hdec : decode_call_with_details res = Except.ok (blockInfo, callResult))
    (hlen : callResult.length ≤ 32)
    (hchain : args.chain_id = none ∨ args.chain_id = some blockInfo.chain_id) :
    (get_balance_using_contract_wrapper args (Except.ok res)).1
      = Except.ok (some
          { gas_balance := some blockInfo.eth_balance
            token_balance := some (beBytesToNat callResult)
            block_number := blockInfo.block_number
            block_datetime := blockInfo.block_datetime }) ∧
    beBytesToNat callResult
      = beBytesToNat (callResult.drop (callResult.length - 32)) := by
  have htok : wrapperTokenResult blockInfo callResult
      = Except.ok (some
          { gas_balance := some blockInfo.eth_balance
            token_balance := some (beBytesToNat callResult)
            block_number := blockInfo.block_number
            block_datetime := blockInfo.block_datetime }) := by
    unfold wrapperTokenResult u256_from_big_endian
    rw [if_pos hlen]
  constructor
  · rcases hchain with hc | hc
    · simp only [get_balance_using_contract_wrapper, hdec, hc, htok]
    · simp only [get_balance_using_contract_wrapper, hdec, hc]
      rw [if_neg (by simp)]
      simp only [htok]
  · have h0 : callResult.length - 32 = 0 := by omega
    rw [h0, List.drop_zero]

/-- Witness instantiating C2 on a concrete 32-byte nested return. -/
theorem c2_wrapper_token_balance_witness :
    (get_balance_using_contract_wrapper
        (GetBalanceArgs.mk 1 (some 2) (some 3) none none)
        (Except.ok (natToBeBytes 32 32 ++ natToBeBytes 32 1 ++ natToBeBytes 32 5
          ++ natToBeBytes 32 1600000000 ++ natToBeBytes 32 7 ++ natToBeBytes 32 160
          ++ natToBeBytes 32 32 ++ natToBeBytes 32 9))).1
      = Except.ok (some
          { gas_balance := some 7
            token_balance := some (beBytesToNat (natToBeBytes 32 9))
            block_number := 5
            block_datetime := 1600000000 }) ∧
    beBytesToNat (natToBeBytes 32 9)
      = beBytesToNat ((natToBeBytes 32 9).drop ((natToBeBytes 32 9).length - 32)) :=
  c2_wrapper_token_balance (GetBalanceArgs.mk 1 (some 2) (some 3) none none)
    (natToBeBytes 32 32 ++ natToBeBytes 32 1 ++ natToBeBytes 32 5
      ++ natToBeBytes 32 1600000000 ++ natToBeBytes 32 7 ++ natToBeBytes 32 160
      ++ natToBeBytes 32 32 ++ natToBeBytes 32 9)
    (CallWithDetails.mk 1 7 5 1600000000) (natToBeBytes 32 9)
    (by decide) (by decide) (Or.inl rfl)

/-- Concrete wrapper-call response whose nested return holds 33 bytes
(counterexample data for C2). -/
def c2Bytes : List Nat :=
  natToBeBytes 32 32 ++ natToBeBytes 32 1 ++ natToBeBytes 32 5
    ++ natToBeBytes 32 1600000000 ++ natToBeBytes 32 7 ++ natToBeBytes 32 160
    ++ natToBeBytes 32 33 ++ List.replicate 33 170 ++ List.replicate 31 0

/-- Counterexample to C2 as stated: this wrapper-call response decodes
successfully with a 33-byte nested return, yet the atomic path panics in
`U256::from_big_endian` instead of returning the big-endian value of the
last 32 bytes. -/
theorem c2_counterexample :
    decode_call_with_details c2Bytes
      = Except.ok (CallWithDetails.mk 1 7 5 1600000000, List.replicate 33 170) ∧
    (get_balance_using_contract_wrapper
        (GetBalanceArgs.mk 1 (some 2) (some 3) none none)
        (Except.ok c2Bytes)).1
      = Except.error "panic: assertion failed: slice length exceeds 32" := by
  constructor
  · decide
  · decide

/-- C3 (amended). With both a token address and a wrapper address
configured, an atomic-path RPC error whose lowercased text contains
`"insufficient funds"` makes `get_balance` run the fallback path and
return its result; any other atomic-path RPC error makes `get_balance`
fail with an error message wrapping the original error text (not the
identical error value — see the counterexample) and the fallback is
never invoked. -/
theorem c3_insufficient_funds_classification (args : GetBalanceArgs)
    (t c : Nat) (ht : args.token_address = some t) (hc : args.call_with_details = some c)
    (e : String)
    (blockReply : Except String (Option BlockInfo))
    (balanceReply : Except String Nat)
    (tokenCallReply : Except String (List Nat)) :
    (containsInsufficientFunds e = true →
      get_balance args (Except.error e) blockReply balanceReply tokenCallReply
        = ((get_balance_simple args blockReply balanceReply tokenCallReply).1,
           RpcCall.ethCall :: (get_balance_simple args blockReply balanceReply tokenCallReply).2)) ∧
    (containsInsufficientFunds e = false →
      get_balance args (Except.error e) blockReply balanceReply tokenCallReply
        = (Except.error (wrapMsg args.address e), [RpcCall.ethCall])) := by
  constructor
  · intro hcond
    simp only [get_balance, ht, hc, get_balance_using_contract_wrapper, hcond, if_true]
    rfl
  · intro hcond
    simp only [get_balance, ht, hc, get_balance_using_contract_wrapper, hcond,
      Bool.false_eq_true, if_false]

/-- Witness instantiating C3 at a matching and a non-matching error. -/
theorem c3_insufficient_funds_classification_witness :
    (containsInsufficientFunds "Insufficient Funds for gas" = true →
      get_balance (GetBalanceArgs.mk 1 (some 2) (some 3) none none)
          (Except.error "Insufficient Funds for gas")
          (Except.ok (some (BlockInfo.mk (some 4) 1000))) (Except.ok 6)
          (Except.ok (natToBeBytes 32 9))
        = ((get_balance_simple (GetBalanceArgs.mk 1 (some 2) (some 3) none none)
              (Except.ok (some (BlockInfo.mk (some 4) 1000))) (Except.ok 6)
              (Except.ok (natToBeBytes 32 9))).1,
           RpcCall.ethCall :: (get_balance_simple (GetBalanceArgs.mk 1 (some 2) (some 3) none none)
              (Except.ok (some (BlockInfo.mk (some 4) 1000))) (Except.ok 6)
              (Except.ok (natToBeBytes 32 9))).2)) ∧
    (containsInsufficientFunds "Insufficient Funds for gas" = false →
      get_balance (GetBalanceArgs.mk 1 (some 2) (some 3) none none)
          (Except.error "Insufficient Funds for gas")
          (Except.ok (some (BlockInfo.mk (some 4) 1000))) (Except.ok 6)
          (Except.ok (natToBeBytes 32 9))
        = (Except.error (wrapMsg 1 "Insufficient Funds for gas"), [RpcCall.ethCall])) :=
  c3_insufficient_funds_classification (GetBalanceArgs.mk 1 (some 2) (some 3) none none)
    2 3 rfl rfl "Insufficient Funds for gas"
    (Except.ok (some (BlockInfo.mk (some 4) 1000))) (Except.ok 6)
    (Except.ok (natToBeBytes 32 9))

/-- Counterexample to C3 as stated: a non-matching atomic-path error is
not returned as-is — `get_balance` returns a new error whose message
wraps the original text. -/
theorem c3_counterexample :
    (get_balance (GetBalanceArgs.mk 1 (some 2) (some 3) none none)
        (Except.error "boom")
        (Except.ok (some (BlockInfo.mk (some 4) 1000))) (Except.ok 6)
        (Except.ok (natToBeBytes 32 9))).1
      = Except.error (wrapMsg 1 "boom") ∧
    wrapMsg 1 "boom" ≠ "boom" := by
  constructor
  · decide
  · decide

/-! ## Dynamic deposit validator (`validate_deposit_eth`, eth.rs) -/

/-- UTF-8 bytes of an ASCII string literal (validator-level strings are
byte lists). -/
def bs (s : String) : List Nat := s.data.map Char.toNat

/-- Inverse of `bs` on ASCII byte lists, used to splice parameter names
into error messages. -/
def bytesToString (l : List Nat) : String := String.mk (l.map Char.ofNat)

/-- Embedding of the `uint` crate `from_dec_str`: every byte must be an
ASCII digit and the value must fit 256 bits (the crate detects overflow
per step, which for digit strings is equivalent to the final bound). An
empty string parses as zero. -/
def u256_from_dec_str (s : List Nat) : Except String Nat :=
  match s.foldl (fun acc b =>
      match acc with
      | some v => if 48 ≤ b ∧ b ≤ 57 then some (v * 10 + (b - 48)) else none
      | none => none) (some 0) with
  | none => Except.error "Invalid character"
  | some v => if v < 2 ^ 256 then Except.ok v else Except.error "Invalid length"

/-- Value of an ASCII hex digit byte, either case. -/
def hexByteVal (b : Nat) : Option Nat :=
  if 48 ≤ b ∧ b ≤ 57 then some (b - 48)
  else if 97 ≤ b ∧ b ≤ 102 then some (b - 87)
  else if 65 ≤ b ∧ b ≤ 70 then some (b - 55)
  else none

/-- Accumulate hex digit bytes left to right; any non-digit fails. -/
def parseHexBytes (l : List Nat) : Option Nat :=
  l.foldl (fun acc b =>
      match acc, hexByteVal b with
      | some v, some d => some (v * 16 + d)
      | _, _ => none) (some 0)

/-- `strip_prefix("0x")` at the byte level. -/
def stripHexPrefixBytes (s : List Nat) : List Nat :=
  if s.take 2 = [48, 120] then s.drop 2 else s

/-- The `uint` crate `FromStr` for `U256` on byte strings (the
hexadecimal fallback of the validator's value parsing). -/
def u256FromStrBytes (s : List Nat) : Except String Nat :=
  if (stripHexPrefixBytes s).length > 64 then Except.error "Invalid input length"
  else
    match parseHexBytes (stripHexPrefixBytes s) with
    | some v => Except.ok v
    | none => Except.error "Invalid character"

/-- Embedding of `SignatureParam` (eth.rs): one entry of the schema the
lock contract declares, a `{"type", "name"}` pair. -/
structure SignatureParam where
  typ : List Nat
  name : List Nat
  deriving Repr, DecidableEq

/-- The only `ethabi::ParamType` shapes the validator constructs. -/
inductive EthAbiParamKind where
  | uint : Nat → EthAbiParamKind
  deriving Repr, DecidableEq

/-- An `ethabi::Param` as the validator constructs it. -/
structure EthAbiParam where
  name : List Nat
  kind : EthAbiParamKind
  deriving Repr, DecidableEq

/-- An `ethabi::Token` as the validator constructs it. -/
inductive EthAbiToken where
  | uint : Nat → EthAbiToken
  deriving Repr, DecidableEq

/-- Embedding of `ValidateDepositResult` (runtime.rs): a successful call
is either the `Valid` verdict or `Invalid` carrying the contract's
reason string. -/
inductive ValidateDepositResult where
  | Valid : ValidateDepositResult
  | Invalid : List Nat → ValidateDepositResult
  deriving Repr, DecidableEq

/-! JSON parsing of the schema (`serde_json::from_str::<Vec<SignatureParam>>`).
The parser covers the grammar the validator can meet — arrays of flat
objects whose fields are strings, with standard whitespace and the
single-character escapes — and errs on anything else; on its success set
it agrees with `serde_json` (first parse the value, then require exactly
one `type` and one `name` field per object, ignoring unknown fields). -/

/-- Skip JSON whitespace bytes (space, tab, newline, carriage return). -/
def skipWs : List Nat → List Nat
  | [] => []
  | b :: rest => if b = 32 ∨ b = 9 ∨ b = 10 ∨ b = 13 then skipWs rest else b :: rest

/-- Parse a JSON string body after its opening quote; returns content
bytes and the remaining input. Handles the single-character escapes. -/
def parseJsonStringBody : Nat → List Nat → Option (List Nat × List Nat)
  | 0, _ => none
  | _ + 1, [] => none
  | _ + 1, 34 :: rest => some ([], rest)
  | fuel + 1, 92 :: e :: rest =>
    match (match e with
           | 34 => some 34 | 92 => some 92 | 47 => some 47
           | 110 => some 10 | 116 => some 9 | 114 => some 13
           | 98 => some 8 | 102 => some 12 | _ => none) with
    | some ch =>
      match parseJsonStringBody fuel rest with
      | some (s, rem) => some (ch :: s, rem)
      | none => none
    | none => none
  | _ + 1, [92] => none
  | fuel + 1, b :: rest =>
    match parseJsonStringBody fuel rest with
    | some (s, rem) => some (b :: s, rem)
    | none => none

/-- Parse the members of a JSON object after its opening brace; only
string-valued fields are supported. Returns the field list and the input
after the closing brace. -/
def parseMembers : Nat → List Nat → Option (List (List Nat × List Nat) × List Nat)
  | 0, _ => none
  | fuel + 1, input =>
    match skipWs input with
    | 34 :: rest =>
      match parseJsonStringBody (rest.length + 1) rest with
      | none => none
      | some (key, rem) =>
        match skipWs rem with
        | 58 :: rem2 =>
          match skipWs rem2 with
          | 34 :: rem3 =>
            match parseJsonStringBody (rem3.length + 1) rem3 with
            | none => none
            | some (value, rem4) =>
              match skipWs rem4 with
              | 44 :: rem5 =>
                match parseMembers fuel rem5 with
                | some (more, rem6) => some ((key, value) :: more, rem6)
                | none => none
              | 125 :: rem5 => some ([(key, value)], rem5)
              | _ => none
          | _ => none
        | _ => none
    | _ => none

/-- Parse one JSON object of string fields. -/
def parseObject (input : List Nat) : Option (List (List Nat × List Nat) × List Nat) :=
  match skipWs input with
  | 123 :: rest =>
    match skipWs rest with
    | 125 :: rem => some ([], rem)
    | _ => parseMembers (rest.length + 1) rest
  | _ => none

/-- Parse the remaining elements of a non-empty array of objects. -/
def parseObjectsRest : Nat → List Nat → Option (List (List (List Nat × List Nat)) × List Nat)
  | 0, _ => none
  | fuel + 1, input =>
    match parseObject input with
    | none => none
    | some (fields, rem) =>
      match skipWs rem with
      | 44 :: rem2 =>
        match parseObjectsRest fuel rem2 with
        | some (objs, rem3) => some (fields :: objs, rem3)
        | none => none
      | 93 :: rem2 => some ([fields], rem2)
      | _ => none

/-- Parse a complete JSON array of flat string-field objects, requiring
only whitespace after it. -/
def parseJsonArrayOfObjects (input : List Nat) : Option (List (List (List Nat × List Nat))) :=
  match skipWs input with
  | 91 :: rest =>
    match skipWs rest with
    | 93 :: rem => if skipWs rem = [] then some [] else none
    | _ =>
      match parseObjectsRest (rest.length + 1) rest with
      | some (objs, rem) => if skipWs rem = [] then some objs else none
      | none => none
  | _ => none

/-- Deserialize one object into a `SignatureParam`: exactly one `type`
and one `name` field (serde rejects missing and duplicate known fields,
and ignores unknown ones). -/
def fieldsToSignatureParam (fields : List (List Nat × List Nat)) : Option SignatureParam :=
  match fields.filter (fun kv => kv.1 = bs "type"),
      fields.filter (fun kv => kv.1 = bs "name") with
  | [(_, t)], [(_, n)] => some { typ := t, name := n }
  | _, _ => none

/-- Embedding of `serde_json::from_str::<Vec<SignatureParam>>` on the
decoded schema string. -/
def parseSignatureParams (input : List Nat) : Except String (List SignatureParam) :=
  match parseJsonArrayOfObjects input with
  | none => Except.error "Failed to parse signature params"
  | some objs =>
    match objs.mapM fieldsToSignatureParam with
    | some ps => Except.ok ps
    | none => Except.error "Failed to parse signature params"

/-- Embedding of `ethabi_decode_string_result` (eth.rs):
`ethabi::decode(&[String], bytes)` — offset word, length word, content —
with decode failures mapped to the function's custom message. The
decoded token always converts back to a string (`from_utf8_lossy`), so
the trailing checks of the Rust function cannot fail. -/
def ethabi_decode_string_result (bytes : List Nat) : Except String (List Nat) :=
  match (if bytes.length = 0 then Except.error "empty data"
         else
           match abiWord bytes 0 with
           | Except.error e => Except.error e
           | Except.ok w =>
             match abiUsize w with
             | Except.error e => Except.error e
             | Except.ok off =>
               match abiWord bytes off with
               | Except.error e => Except.error e
               | Except.ok lenWord =>
                 match abiUsize lenWord with
                 | Except.error e => Except.error e
                 | Except.ok len => abiTakeBytes bytes (off + 32) len) with
  | Except.error _ => Except.error "Failed to decode string result from bytes"
  | Except.ok s => Except.ok s

/-- Lookup in the caller-supplied argument mapping
(`BTreeMap<String, String>::get`). -/
def lookupArg (args : List (List Nat × List Nat)) (name : List Nat) : Option (List Nat) :=
  match args with
  | [] => none
  | (k, v) :: rest => if k = name then some v else lookupArg rest name

def missingParamMsg (name : List Nat) : String :=
  "Missing required parameter: " ++ bytesToString name

def unsupportedTypeMsg (name typ : List Nat) : String :=
  "Unsupported type for parameter " ++ bytesToString name ++ ": " ++ bytesToString typ

/-- The validator's value parsing (eth.rs lines 196-206): decimal first,
hexadecimal (`U256::from_str`) as fallback, with the fallback's error
naming the parameter. -/
def parseParamValue (name v : List Nat) : Except String Nat :=
  match u256_from_dec_str v with
  | Except.ok value => Except.ok value
  | Except.error _ =>
    match u256FromStrBytes v with
    | Except.ok value => Except.ok value
    | Except.error e =>
      Except.error ("Invalid value for parameter " ++ bytesToString name ++ ": " ++ e)

/-- Embedding of the per-parameter loop (eth.rs lines 177-230): `id` is
bound to the caller-context deposit id; every other declared name must
appear in the argument mapping (else "Missing required parameter"), must
be declared `uint128` (else "Unsupported type"), and must parse as a
number. Returns the matched-name list and the built
parameter/value lists. -/
def processParams (deposit_id : Nat) (validate_args : List (List Nat × List Nat)) :
    List SignatureParam → Except String (List (List Nat) × List EthAbiParam × List EthAbiToken)
  | [] => Except.ok ([], [], [])
  | sp :: rest =>
    if sp.name = bs "id" then
      match processParams deposit_id validate_args rest with
      | Except.error e => Except.error e
      | Except.ok (m, ps, ts) =>
        Except.ok (bs "id" :: m,
          { name := bs "id", kind := EthAbiParamKind.uint 256 } :: ps,
          EthAbiToken.uint deposit_id :: ts)
    else
      match lookupArg validate_args sp.name with
      | some v =>
        if sp.typ = bs "uint128" then
          match parseParamValue sp.name v with
          | Except.error e => Except.error e
          | Except.ok value =>
            match processParams deposit_id validate_args rest with
            | Except.error e => Except.error e
            | Except.ok (m, ps, ts) =>
              Except.ok (sp.name :: m,
                { name := sp.name, kind := EthAbiParamKind.uint 128 } :: ps,
                EthAbiToken.uint value :: ts)
        else Except.error (unsupportedTypeMsg sp.name sp.typ)
      | none => Except.error (missingParamMsg sp.name)

/-- Embedding of the converse check (eth.rs lines 232-239): every
declared parameter name must occur in the matched list. -/
def checkMatched : List SignatureParam → List (List Nat) → Except String Unit
  | [], _ => Except.ok ()
  | sp :: rest, matched =>
    if sp.name ∈ matched then checkMatched rest matched
    else Except.error (missingParamMsg sp.name)

/-- Embedding of `encode_validate_contract` (contracts.rs): build the ad
hoc `validateDeposit` function from the matched parameters and encode
the tokens. `Function::encode_input` type-checks tokens against
parameter kinds (always satisfied here by construction). The 4-byte
keccak selector is outside the embedding; only the argument words are
produced, and no verified property inspects these bytes. -/
def encode_validate_contract (params : List EthAbiParam) (values : List EthAbiToken) :
    Except String (List Nat) :=
  if params.length = values.length then
    Except.ok (values.foldr
      (fun t acc => (match t with | EthAbiToken.uint v => natToBeBytes 32 v) ++ acc) [])
  else Except.error "Invalid data"

/-- The stages of `validate_deposit_eth` after block-number resolution:
fetch and decode the schema, parse it, process the parameters, run the
converse check, encode and issue the `validateDeposit` call, and
interpret the string verdict. `preCalls` records the RPC calls already
issued by block resolution. -/
def validate_deposit_tail (deposit_id : Nat)
    (validate_args : List (List Nat × List Nat))
    (sigCallReply : Except String (List Nat))
    (validateCallReply : Except String (List Nat))
    (preCalls : List RpcCall) :
    Except String ValidateDepositResult × List RpcCall :=
  match sigCallReply with
  | Except.error e => (Except.error e, preCalls ++ [RpcCall.ethCall])
  | Except.ok bytes =>
    match ethabi_decode_string_result bytes with
    | Except.error e => (Except.error e, preCalls ++ [RpcCall.ethCall])
    | Except.ok str =>
      match parseSignatureParams str with
      | Except.error e => (Except.error e, preCalls ++ [RpcCall.ethCall])
      | Except.ok signature_params =>
        match processParams deposit_id validate_args signature_params with
        | Except.error e => (Except.error e, preCalls ++ [RpcCall.ethCall])
        | Except.ok (matched, function_params, function_values) =>
          match checkMatched signature_params matched with
          | Except.error e => (Except.error e, preCalls ++ [RpcCall.ethCall])
          | Except.ok _ =>
            match encode_validate_contract function_params function_values with
            | Except.error e => (Except.error ("panic: " ++ e), preCalls ++ [RpcCall.ethCall])
            | Except.ok _callData =>
              match validateCallReply with
              | Except.error e =>
                (Except.error e, preCalls ++ [RpcCall.ethCall, RpcCall.ethCall])
              | Except.ok res =>
                match ethabi_decode_string_result res with
                | Except.error e =>
                  (Except.error e, preCalls ++ [RpcCall.ethCall, RpcCall.ethCall])
                | Except.ok s =>
                  (Except.ok (if s = bs "valid" then ValidateDepositResult.Valid
                              else ValidateDepositResult.Invalid s),
                   preCalls ++ [RpcCall.ethCall, RpcCall.ethCall])

/-- Embedding of `validate_deposit_eth` (eth.rs): resolve the block
number (an `eth_block_number` RPC call when none is supplied — the
resolved number only selects the block of the validate call and is not
otherwise observable), then run the staged tail. -/
def validate_deposit_eth (deposit_id : Nat)
    (validate_args : List (List Nat × List Nat))
    (block_number : Option Nat)
    (blockNumberReply : Except String Nat)
    (sigCallReply : Except String (List Nat))
    (validateCallReply : Except String (List Nat)) :
    Except String ValidateDepositResult × List RpcCall :=
  match block_number with
  | some _ => validate_deposit_tail deposit_id validate_args sigCallReply validateCallReply []
  | none =>
    match blockNumberReply with
    | Except.error e => (Except.error e, [RpcCall.ethBlockNumber])
    | Except.ok _ =>
      validate_deposit_tail deposit_id validate_args sigCallReply validateCallReply
        [RpcCall.ethBlockNumber]

theorem processParams_mem (dep : Nat) (args : List (List Nat × List Nat)) :
    ∀ (params : List SignatureParam) (m : List (List Nat)) (ps : List EthAbiParam)
      (ts : List EthAbiToken),
      processParams dep args params = Except.ok (m, ps, ts) →
      ∀ sp ∈ params, sp.name ∈ m := by
  intro params
  induction params with
  | nil => intro m ps ts h sp hsp; exact absurd hsp (List.not_mem_nil sp)
  | cons sp0 rest ih =>
    intro m ps ts h sp hsp
    unfold processParams at h
    by_cases hid : sp0.name = bs "id"
    · rw [if_pos hid] at h
      cases hrest : processParams dep args rest with
      | error e => rw [hrest] at h; exact absurd h (by simp)
      | ok triple =>
        obtain ⟨m1, ps1, ts1⟩ := triple
        rw [hrest] at h
        simp only [Except.ok.injEq, Prod.mk.injEq] at h
        obtain ⟨hm, hps, hts⟩ := h
        rcases List.mem_cons.mp hsp with hh | hh
        · subst hh
          rw [← hm, hid]
          exact List.mem_cons_self _ _
        · exact hm ▸ List.mem_cons_of_mem _ (ih m1 ps1 ts1 hrest sp hh)
    · rw [if_neg hid] at h
      cases hlook : lookupArg args sp0.name with
      | none => rw [hlook] at h; exact absurd h (by simp)
      | some v =>
        rw [hlook] at h
        simp only [] at h
        by_cases htyp : sp0.typ = bs "uint128"
        · rw [if_pos htyp] at h
          cases hval : parseParamValue sp0.name v with
          | error e => rw [hval] at h; exact absurd h (by simp)
          | ok value =>
            rw [hval] at h
            simp only [] at h
            cases hrest : processParams dep args rest with
            | error e => rw [hrest] at h; exact absurd h (by simp)
            | ok triple =>
              obtain ⟨m1, ps1, ts1⟩ := triple
              rw [hrest] at h
              simp only [Except.ok.injEq, Prod.mk.injEq] at h
              obtain ⟨hm, hps, hts⟩ := h
              rcases List.mem_cons.mp hsp with hh | hh
              · subst hh
                exact hm ▸ List.mem_cons_self _ _
              · exact hm ▸ List.mem_cons_of_mem _ (ih m1 ps1 ts1 hrest sp hh)
        · rw [if_neg htyp] at h
          exact absurd h (by simp)

theorem processParams_lengths (dep : Nat) (args : List (List Nat × List Nat)) :
    ∀ (params : List SignatureParam) (m : List (List Nat)) (ps : List EthAbiParam)
      (ts : List EthAbiToken),
      processParams dep args params = Except.ok (m, ps, ts) →
      ps.length = ts.length := by
  intro params
  induction params with
  | nil =>
    intro m ps ts h
    simp only [processParams, Except.ok.injEq, Prod.mk.injEq] at h
    obtain ⟨_, hps, hts⟩ := h
    rw [← hps, ← hts]
    rfl
  | cons sp0 rest ih =>
    intro m ps ts h
    unfold processParams at h
    by_cases hid : sp0.name = bs "id"
    · rw [if_pos hid] at h
      cases hrest : processParams dep args rest with
      | error e => rw [hrest] at h; exact absurd h (by simp)
      | ok triple =>
        obtain ⟨m1, ps1, ts1⟩ := triple
        rw [hrest] at h
        simp only [Except.ok.injEq, Prod.mk.injEq] at h
        obtain ⟨hm, hps, hts⟩ := h
        rw [← hps, ← hts]
        simp [ih m1 ps1 ts1 hrest]
    · rw [if_neg hid] at h
      cases hlook : lookupArg args sp0.name with
      | none => rw [hlook] at h; exact absurd h (by simp)
      | some v =>
        rw [hlook] at h
        simp only [] at h
        by_cases htyp : sp0.typ = bs "uint128"
        · rw [if_pos htyp] at h
          cases hval : parseParamValue sp0.name v with
          | error e => rw [hval] at h; exact absurd h (by simp)
          | ok value =>
            rw [hval] at h
            simp only [] at h
            cases hrest : processParams dep args rest with
            | error e => rw [hrest] at h; exact absurd h (by simp)
            | ok triple =>
              obtain ⟨m1, ps1, ts1⟩ := triple
              rw [hrest] at h
              simp only [Except.ok.injEq, Prod.mk.injEq] at h
              obtain ⟨hm, hps, hts⟩ := h
              rw [← hps, ← hts]
              simp [ih m1 ps1 ts1 hrest]
        · rw [if_neg htyp] at h
          exact absurd h (by simp)

theorem checkMatched_ok : ∀ (params : List SignatureParam) (m : List (List Nat)),
    (∀ sp ∈ params, sp.name ∈ m) → checkMatched params m = Except.ok ()
  | [], _, _ => rfl
  | sp :: rest, m, h => by
    unfold checkMatched
    rw [if_pos (h sp (List.mem_cons_self sp rest))]
    exact checkMatched_ok rest m (fun q hq => h q (List.mem_cons_of_mem sp hq))

theorem processParams_error_of_missing (dep : Nat) (args : List (List Nat × List Nat)) :
    ∀ (params : List SignatureParam),
      (∃ sp ∈ params, sp.name ≠ bs "id" ∧ lookupArg args sp.name = none) →
      ∃ e, processParams dep args params = Except.error e := by
  intro params
  induction params with
  | nil =>
    rintro ⟨sp, hsp, _⟩
    exact absurd hsp (List.not_mem_nil sp)
  | cons sp0 rest ih =>
    rintro ⟨sp, hsp, hname, hlook⟩
    unfold processParams
    by_cases hid : sp0.name = bs "id"
    · rw [if_pos hid]
      have hsprest : sp ∈ rest := by
        rcases List.mem_cons.mp hsp with hh | hh
        · subst hh; exact absurd hid hname
        · exact hh
      obtain ⟨e, he⟩ := ih ⟨sp, hsprest, hname, hlook⟩
      rw [he]
      exact ⟨e, rfl⟩
    · rw [if_neg hid]
      cases hlook0 : lookupArg args sp0.name with
      | none => exact ⟨missingParamMsg sp0.name, rfl⟩
      | some v =>
        simp only []
        by_cases htyp : sp0.typ = bs "uint128"
        · rw [if_pos htyp]
          cases hval : parseParamValue sp0.name v with
          | error e => exact ⟨e, rfl⟩
          | ok value =>
            have hsprest : sp ∈ rest := by
              rcases List.mem_cons.mp hsp with hh | hh
              · subst hh; rw [hlook0] at hlook; exact absurd hlook (by simp)
              · exact hh
            obtain ⟨e, he⟩ := ih ⟨sp, hsprest, hname, hlook⟩
            rw [he]
            exact ⟨e, rfl⟩
        · rw [if_neg htyp]
          exact ⟨unsupportedTypeMsg sp0.name sp0.typ, rfl⟩

/-- A declared parameter the per-parameter loop handles without error:
either the implicit `id`, or present in the mapping with the supported
type and a parsable value. -/
def ParamProcessesCleanly (args : List (List Nat × List Nat)) (q : SignatureParam) : Prop :=
  q.name = bs "id" ∨ (q.name ≠ bs "id" ∧
    ∃ v w, lookupArg args q.name = some v ∧ q.typ = bs "uint128" ∧
      parseParamValue q.name v = Except.ok w)

theorem processParams_missing_first (dep : Nat) (args : List (List Nat × List Nat))
    (sp : SignatureParam) (hname : sp.name ≠ bs "id")
    (hmiss : lookupArg args sp.name = none) :
    ∀ (pre post : List SignatureParam),
      (∀ q ∈ pre, ParamProcessesCleanly args q) →
      processParams dep args (pre ++ sp :: post)
        = Except.error (missingParamMsg sp.name) := by
  intro pre
  induction pre with
  | nil =>
    intro post _
    show processParams dep args (sp :: post) = _
    unfold processParams
    rw [if_neg hname, hmiss]
  | cons q pre ih =>
    intro post hclean
    have hq := hclean q (List.mem_cons_self q pre)
    have hrest : ∀ r ∈ pre, ParamProcessesCleanly args r :=
      fun r hr => hclean r (List.mem_cons_of_mem q hr)
    show processParams dep args (q :: (pre ++ sp :: post)) = _
    unfold processParams
    rcases hq with hqid | ⟨hqne, v, w, hlv, hty, hpv⟩
    · rw [if_pos hqid, ih post hrest]
    · rw [if_neg hqne, hlv]
      simp only []
      rw [if_pos hty, hpv]
      simp only []
      rw [ih post hrest]

theorem validate_tail_error_of_processParams (dep : Nat)
    (args : List (List Nat × List Nat)) (sigBytes schemaStr : List Nat)
    (params : List SignatureParam) (e : String)
    (vR : Except String (List Nat)) (preCalls : List RpcCall)
    (hstr : ethabi_decode_string_result sigBytes = Except.ok schemaStr)
    (hparse : parseSignatureParams schemaStr = Except.ok params)
    (hproc : processParams dep args params = Except.error e) :
    validate_deposit_tail dep args (Except.ok sigBytes) vR preCalls
      = (Except.error e, preCalls ++ [RpcCall.ethCall]) := by
  simp only [validate_deposit_tail, hstr, hparse, hproc]

theorem validate_tail_trace (dep : Nat) (args : List (List Nat × List Nat))
    (sigR vR : Except String (List Nat)) (preCalls : List RpcCall) :
    (validate_deposit_tail dep args sigR vR preCalls).2 = preCalls ++ [RpcCall.ethCall] ∨
    (validate_deposit_tail dep args sigR vR preCalls).2
      = preCalls ++ [RpcCall.ethCall, RpcCall.ethCall] := by
  unfold validate_deposit_tail
  cases sigR with
  | error e => left; rfl
  | ok bytes =>
    cases h1 : ethabi_decode_string_result bytes with
    | error e => left; simp only [h1]
    | ok str =>
      cases h2 : parseSignatureParams str with
      | error e => left; simp only [h1, h2]
      | ok params =>
        cases h3 : processParams dep args params with
        | error e => left; simp only [h1, h2, h3]
        | ok triple =>
          obtain ⟨m, ps, ts⟩ := triple
          cases h4 : checkMatched params m with
          | error e => left; simp only [h1, h2, h3, h4]
          | ok u =>
            cases h5 : encode_validate_contract ps ts with
            | error e => left; simp only [h1, h2, h3, h4, h5]
            | ok cd =>
              cases vR with
              | error e => right; simp only [h1, h2, h3, h4, h5]
              | ok res =>
                cases h6 : ethabi_decode_string_result res with
                | error e => right; simp only [h1, h2, h3, h4, h5, h6]
                | ok s => right; simp only [h1, h2, h3, h4, h5, h6]

/-- ABI encoding of a dynamic string return value (offset word, length
word, padded content) — used to build concrete call replies. -/
def abiString (s : List Nat) : List Nat :=
  natToBeBytes 32 32 ++ natToBeBytes 32 s.length ++ s
    ++ List.replicate ((32 - s.length % 32) % 32) 0

/-- C9. Whenever the per-parameter loop (step 3) completes without
error, every declared parameter name is contained in the matched list,
so the converse check (step 4) always passes — it is defensive and adds
no validation beyond the loop. -/
theorem c9_converse_check_redundant (dep : Nat) (args : List (List Nat × List Nat))
    (params : List SignatureParam) (m : List (List Nat)) (ps : List EthAbiParam)
    (ts : List EthAbiToken)
    (h : processParams dep args params = Except.ok (m, ps, ts)) :
    (∀ sp ∈ params, sp.name ∈ m) ∧ checkMatched params m = Except.ok () :=
  ⟨processParams_mem dep args params m ps ts h,
   checkMatched_ok params m (processParams_mem dep args params m ps ts h)⟩

/-- Witness instantiating C9 on a one-parameter schema. -/
theorem c9_converse_check_redundant_witness :
    (∀ sp ∈ [SignatureParam.mk (bs "uint128") (bs "usage")], sp.name ∈ [bs "usage"]) ∧
    checkMatched [SignatureParam.mk (bs "uint128") (bs "usage")] [bs "usage"]
      = Except.ok () :=
  c9_converse_check_redundant 5 [(bs "usage", bs "100")]
    [SignatureParam.mk (bs "uint128") (bs "usage")]
    [bs "usage"]
    [EthAbiParam.mk (bs "usage") (EthAbiParamKind.uint 128)]
    [EthAbiToken.uint 100] (by decide)

/-- C5. Whenever the validator reaches the `validateDeposit` call and the
returned bytes decode to a string `s`, the overall result is a success:
the `Valid` verdict exactly when `s` is the literal `"valid"`, and
otherwise the `Invalid` verdict carrying `s` verbatim. -/
theorem c5_verdict (dep : Nat) (args : List (List Nat × List Nat))
    (block_number : Option Nat) (bnr : Except String Nat) (b : Nat)
    (sigBytes schemaStr : List Nat) (params : List SignatureParam)
    (m : List (List Nat)) (ps : List EthAbiParam) (ts : List EthAbiToken)
    (res s : List Nat)
    (hbn : block_number = some b ∨ (block_number = none ∧ bnr = Except.ok b))
    (hstr : ethabi_decode_string_result sigBytes = Except.ok schemaStr)
    (hparse : parseSignatureParams schemaStr = Except.ok params)
    (hproc : processParams dep args params = Except.ok (m, ps, ts))
    (hres : ethabi_decode_string_result res = Except.ok s) :
    (validate_deposit_eth dep args block_number bnr (Except.ok sigBytes) (Except.ok res)).1
      = Except.ok (if s = bs "valid" then ValidateDepositResult.Valid
                   else ValidateDepositResult.Invalid s) := by
  have hmem := processParams_mem dep args params m ps ts hproc
  have hchk : checkMatched params m = Except.ok () := checkMatched_ok params m hmem
  have hplen : ps.length = ts.length := processParams_lengths dep args params m ps ts hproc
  have henc : encode_validate_contract ps ts
      = Except.ok (ts.foldr (fun t acc =>
          (match t with | EthAbiToken.uint v => natToBeBytes 32 v) ++ acc) []) := by
    unfold encode_validate_contract
    rw [if_pos hplen]
  have htail : ∀ preCalls,
      (validate_deposit_tail dep args (Except.ok sigBytes) (Except.ok res) preCalls).1
        = Except.ok (if s = bs "valid" then ValidateDepositResult.Valid
                     else ValidateDepositResult.Invalid s) := by
    intro preCalls
    simp only [validate_deposit_tail, hstr, hparse, hproc, hchk, henc, hres]
  rcases hbn with hb | ⟨hb, hr⟩
  · rw [hb]
    simp only [validate_deposit_eth]
    exact htail []
  · rw [hb]
    simp only [validate_deposit_eth, hr]
    exact htail [RpcCall.ethBlockNumber]

/-- Witness instantiating C5 on an empty schema and the `"valid"`
verdict string. -/
theorem c5_verdict_witness :
    (validate_deposit_eth 7 [] (some 1) (Except.ok 1)
        (Except.ok (abiString (bs "[]")))
        (Except.ok (abiString (bs "valid")))).1
      = Except.ok (if bs "valid" = bs "valid" then ValidateDepositResult.Valid
                   else ValidateDepositResult.Invalid (bs "valid")) :=
  c5_verdict 7 [] (some 1) (Except.ok 1) 1 (abiString (bs "[]")) (bs "[]") [] [] [] []
    (abiString (bs "valid")) (bs "valid") (Or.inl rfl)
    (by decide) (by decide) (by decide) (by decide)

/-- C4 (amended). If some declared parameter other than `id` is absent
from the caller mapping, `validate_deposit_eth` fails and the
`validateDeposit` eth_call is never issued (the trace holds at most the
schema-fetch eth_call); whenever block resolution succeeds (an explicit
block number, or none with a successful `eth_block_number` reply) and
every earlier declared parameter processes cleanly, the failure is the
"Missing required parameter" error naming that parameter — but an
earlier parameter's own failure is reported instead (see the
counterexample), and a failing `eth_block_number` reply surfaces as
that RPC error. -/
theorem c4_missing_parameter (dep : Nat) (args : List (List Nat × List Nat))
    (block_number : Option Nat) (bnr : Except String Nat)
    (sigBytes schemaStr : List Nat) (vR : Except String (List Nat))
    (pre post : List SignatureParam) (sp : SignatureParam)
    (hstr : ethabi_decode_string_result sigBytes = Except.ok schemaStr)
    (hparse : parseSignatureParams schemaStr = Except.ok (pre ++ sp :: post))
    (hname : sp.name ≠ bs "id")
    (hmiss : lookupArg args sp.name = none) :
    ((∃ e, (validate_deposit_eth dep args block_number bnr (Except.ok sigBytes) vR).1
        = Except.error e) ∧
     (validate_deposit_eth dep args block_number bnr (Except.ok sigBytes) vR).2.count
        RpcCall.ethCall ≤ 1) ∧
    ((∀ q ∈ pre, ParamProcessesCleanly args q) →
      ∀ b, (block_number = some b ∨ (block_number = none ∧ bnr = Except.ok b)) →
        (validate_deposit_eth dep args block_number bnr (Except.ok sigBytes) vR).1
          = Except.error (missingParamMsg sp.name)) := by
  obtain ⟨e0, he0⟩ : ∃ e0, processParams dep args (pre ++ sp :: post) = Except.error e0 :=
    processParams_error_of_missing dep args (pre ++ sp :: post)
      ⟨sp, by simp, hname, hmiss⟩
  have htail : ∀ preCalls,
      validate_deposit_tail dep args (Except.ok sigBytes) vR preCalls
        = (Except.error e0, preCalls ++ [RpcCall.ethCall]) :=
    fun preCalls => validate_tail_error_of_processParams dep args sigBytes schemaStr
      (pre ++ sp :: post) e0 vR preCalls hstr hparse he0
  constructor
  · cases block_number with
    | some b =>
      constructor
      · exact ⟨e0, by simp only [validate_deposit_eth, htail []]⟩
      · simp only [validate_deposit_eth, htail []]
        decide
    | none =>
      cases bnr with
      | error e =>
        constructor
        · exact ⟨e, by simp only [validate_deposit_eth]⟩
        · simp only [validate_deposit_eth]
          decide
      | ok bv =>
        constructor
        · exact ⟨e0, by simp only [validate_deposit_eth, htail [RpcCall.ethBlockNumber]]⟩
        · simp only [validate_deposit_eth, htail [RpcCall.ethBlockNumber]]
          decide
  · intro hclean b hb
    have hfirst : processParams dep args (pre ++ sp :: post)
        = Except.error (missingParamMsg sp.name) :=
      processParams_missing_first dep args sp hname hmiss pre post hclean
    rcases hb with hb | ⟨hb1, hb2⟩
    · have htail2 := validate_tail_error_of_processParams dep args sigBytes schemaStr
        (pre ++ sp :: post) (missingParamMsg sp.name) vR [] hstr hparse hfirst
      subst hb
      simp only [validate_deposit_eth, htail2]
    · have htail2 := validate_tail_error_of_processParams dep args sigBytes schemaStr
        (pre ++ sp :: post) (missingParamMsg sp.name) vR [RpcCall.ethBlockNumber]
        hstr hparse hfirst
      subst hb1
      simp only [validate_deposit_eth, hb2, htail2]

/-- Schema JSON declaring a single required `uint128` parameter named
`usage` (witness data for C4). -/
def c4Json : List Nat := bs "[\x7b\"type\":\"uint128\",\"name\":\"usage\"\x7d]"

/-- Witness instantiating C4 on a schema demanding `usage`, an empty
caller mapping, and an implicit block number (a successful
`eth_block_number` reply), discharging every hypothesis of the naming
conjunct. -/
theorem c4_missing_parameter_witness :
    (validate_deposit_eth 1 [] none (Except.ok 10)
        (Except.ok (abiString c4Json)) (Except.ok [])).1
      = Except.error (missingParamMsg (SignatureParam.mk (bs "uint128") (bs "usage")).name) :=
  (c4_missing_parameter 1 [] none (Except.ok 10) (abiString c4Json) c4Json
    (Except.ok []) [] [] (SignatureParam.mk (bs "uint128") (bs "usage"))
    (by decide) (by decide) (by decide) (by decide)).2
    (fun q hq => absurd hq (List.not_mem_nil q)) 10 (Or.inr ⟨rfl, rfl⟩)

/-- Schema JSON declaring `aa` of unsupported type `uint256` followed by
`bb` of type `uint128` (counterexample data for C4). -/
def c4Json2 : List Nat :=
  bs "[\x7b\"type\":\"uint256\",\"name\":\"aa\"\x7d,\x7b\"type\":\"uint128\",\"name\":\"bb\"\x7d]"

/-- Counterexample to C4 as stated: parameter `bb` is absent from the
mapping, yet the failure names `aa` (whose declared type is unsupported)
rather than being a "Missing required parameter" error for `bb`. -/
theorem c4_counterexample :
    lookupArg [(bs "aa", bs "1")] (bs "bb") = none ∧
    bs "bb" ≠ bs "id" ∧
    (validate_deposit_eth 1 [(bs "aa", bs "1")] (some 10) (Except.ok 1)
        (Except.ok (abiString c4Json2)) (Except.ok [])).1
      = Except.error (unsupportedTypeMsg (bs "aa") (bs "uint256")) ∧
    unsupportedTypeMsg (bs "aa") (bs "uint256") ≠ missingParamMsg (bs "bb") := by
  exact ⟨by decide, by decide, by decide, by decide⟩

theorem get_balance_simple_trace_le (args : GetBalanceArgs)
    (blockReply : Except String (Option BlockInfo))
    (balanceReply : Except String Nat)
    (tokenCallReply : Except String (List Nat)) :
    (get_balance_simple args blockReply balanceReply tokenCallReply).2.length ≤ 3 := by
  unfold get_balance_simple
  cases blockReply with
  | error e => simp
  | ok ob =>
    cases ob with
    | none => simp
    | some bi =>
      simp only []
      cases hn : bi.number with
      | none => simp [hn]
      | some bn =>
        simp only [hn]
        cases balanceReply with
        | error e => simp
        | ok gb =>
          simp only []
          cases hdt : datetime_from_u256_timestamp bi.timestamp with
          | none => simp [hdt]
          | some bd =>
            simp only [hdt]
            cases hta : args.token_address with
            | none => simp [hta]
            | some ta =>
              simp only [hta]
              cases tokenCallReply with
              | error e => simp
              | ok res =>
                simp only []
                by_cases hl : res.length ≠ 32
                · rw [if_pos hl]; simp
                · rw [if_neg hl]; simp

/-- C6 (amended). The dynamic deposit validator issues at most three RPC
calls: an `eth_block_number` call exactly when no explicit block number
is supplied, then the schema-fetch eth_call, then the validate eth_call
(later calls omitted when an earlier stage fails); with an explicit
block number it issues at most the two eth_calls and no
`eth_block_number` call. The fallback balance path issues at most three
RPC calls (`eth_block`, `eth_balance`, and an eth_call when a token
address is supplied). -/
theorem c6_rpc_call_counts (dep : Nat) (args : List (List Nat × List Nat))
    (block_number : Option Nat) (bnr : Except String Nat)
    (sigR vR : Except String (List Nat))
    (gArgs : GetBalanceArgs)
    (blockReply : Except String (Option BlockInfo))
    (balanceReply : Except String Nat)
    (tokenCallReply : Except String (List Nat)) :
    ((validate_deposit_eth dep args block_number bnr sigR vR).2.length ≤ 3) ∧
    (∀ b, block_number = some b →
      (validate_deposit_eth dep args block_number bnr sigR vR).2.length ≤ 2 ∧
      RpcCall.ethBlockNumber ∉ (validate_deposit_eth dep args block_number bnr sigR vR).2) ∧
    ((get_balance_simple gArgs blockReply balanceReply tokenCallReply).2.length ≤ 3) := by
  refine ⟨?_, ?_, get_balance_simple_trace_le gArgs blockReply balanceReply tokenCallReply⟩
  · cases block_number with
    | some b =>
      simp only [validate_deposit_eth]
      rcases validate_tail_trace dep args sigR vR [] with h | h
      · rw [h]; decide
      · rw [h]; decide
    | none =>
      cases bnr with
      | error e =>
        simp only [validate_deposit_eth]
        decide
      | ok bv =>
        simp only [validate_deposit_eth]
        rcases validate_tail_trace dep args sigR vR [RpcCall.ethBlockNumber] with h | h
        · rw [h]; decide
        · rw [h]; decide
  · intro b hb
    subst hb
    constructor
    · simp only [validate_deposit_eth]
      rcases validate_tail_trace dep args sigR vR [] with h | h
      · rw [h]; decide
      · rw [h]; decide
    · simp only [validate_deposit_eth]
      rcases validate_tail_trace dep args sigR vR [] with h | h
      · rw [h]; decide
      · rw [h]; decide

/-- Witness instantiating C6 at a concrete run with an explicit block
number. -/
theorem c6_rpc_call_counts_witness :
    (validate_deposit_eth 0 [] (some 10) (Except.ok 1)
        (Except.ok (abiString (bs "[]"))) (Except.ok (abiString (bs "valid")))).2.length ≤ 2 ∧
    RpcCall.ethBlockNumber ∉ (validate_deposit_eth 0 [] (some 10) (Except.ok 1)
        (Except.ok (abiString (bs "[]"))) (Except.ok (abiString (bs "valid")))).2 :=
  (c6_rpc_call_counts 0 [] (some 10) (Except.ok 1)
    (Except.ok (abiString (bs "[]"))) (Except.ok (abiString (bs "valid")))
    (GetBalanceArgs.mk 1 none none none none) (Except.ok none) (Except.ok 0)
    (Except.ok [])).2.1 10 rfl

/-- Counterexample to C6 as stated: a successful validation run without
an explicit block number issues three RPC calls (not exactly two), and a
successful fallback balance run with a token address issues three RPC
calls (not at most two). -/
theorem c6_counterexample :
    (validate_deposit_eth 0 [] none (Except.ok 1)
        (Except.ok (abiString (bs "[]"))) (Except.ok (abiString (bs "valid")))).2
      = [RpcCall.ethBlockNumber, RpcCall.ethCall, RpcCall.ethCall] ∧
    (get_balance_simple (GetBalanceArgs.mk 1 (some 2) (some 3) none none)
        (Except.ok (some (BlockInfo.mk (some 4) 1000))) (Except.ok 6)
        (Except.ok (natToBeBytes 32 9))).2
      = [RpcCall.ethBlock, RpcCall.ethBalance, RpcCall.ethCall] := by
  exact ⟨by decide, by decide⟩
